import Mathlib

/-!
Shallow embedding of the Canny–Zernike subpixel edge detector
(`canny_zernike_detector.py`, class `CannyZernikeDetector`, constructed with
the default neighborhood size `n = 7`).

Modelling conventions:
* Images are rasters of real-valued intensities indexed over `ℤ × ℤ` together
  with their shape; the `uint8` grids produced by non-maximum suppression,
  thresholding and hysteresis are `ℕ`-valued rasters (machine `uint8` values
  are exactly the nonnegative integers `0..255` that the code stores).
* The external OpenCV denoising routines (`cv2.bilateralFilter`,
  `cv2.GaussianBlur`) are opaque function parameters of `detect`;
  `cv2.filter2D` is embedded as 3×3 correlation with OpenCV's default
  `BORDER_REFLECT_101` border policy.
* Floating-point arithmetic is modelled by real arithmetic; `np.arctan2 y x`
  is `Complex.arg ⟨x, y⟩` (same quadrant and range conventions).
* When the complex moment denominator `Z11 * exp (-i φ)` is zero, the
  source raises nothing: the numpy scalar division yields `nan` with a
  `RuntimeWarning`, the broad `except` of `subpixel_refinement` never fires,
  `nan` propagates through the clip, `k`, `h` and offset formulas, and the
  appended point is `(nan, nan)`.  Real numbers have no `nan`, so on that
  path `subpixel_edge_parameters` returns `none` (a value that is not a real
  number) and the refiner emits `none` — the model of the `(nan, nan)`
  output, not a fallback.
-/

noncomputable section
open Classical

/-- A real-valued image raster: shape plus intensity data (models a 2-D
`numpy` array of floats / grayscale values; entries outside the shape are
irrelevant to every operation below). -/
@[ext]
structure Raster where
  rows : ℕ
  cols : ℕ
  data : ℤ → ℤ → ℝ

/-- A `uint8`-valued raster (models the 2-D `numpy` `uint8` arrays produced
by non-maximum suppression, thresholding and hysteresis). -/
@[ext]
structure NatRaster where
  rows : ℕ
  cols : ℕ
  data : ℤ → ℤ → ℕ

/-- Index inside the raster shape. -/
def inBounds (r c : ℕ) (i j : ℤ) : Prop := 0 ≤ i ∧ i < (r : ℤ) ∧ 0 ≤ j ∧ j < (c : ℤ)

instance (r c : ℕ) (i j : ℤ) : Decidable (inBounds r c i j) :=
  decidable_of_iff (0 ≤ i ∧ i < (r : ℤ) ∧ 0 ≤ j ∧ j < (c : ℤ)) Iff.rfl

/-- OpenCV `BORDER_REFLECT_101` index reflection (the default border policy of
`cv2.filter2D`), adequate for offsets of at most one pixel on images with at
least two rows/columns. -/
def refl101 (n : ℕ) (idx : ℤ) : ℤ :=
  if idx < 0 then -idx else if (n : ℤ) ≤ idx then 2 * ((n : ℤ) - 1) - idx else idx

/-- Entry of a list-of-lists kernel (total, defaulting to 0). -/
def entryAt (k : List (List ℝ)) (a b : ℕ) : ℝ := (k.getD a []).getD b 0

/-- Models `cv2.filter2D(img, cv2.CV_64F, K)` for a 3×3 kernel `K`:
correlation with reflected border. -/
def filter2D (k : List (List ℝ)) (img : Raster) : Raster :=
  ⟨img.rows, img.cols, fun i j =>
    ((List.range 3).map fun a =>
      (((List.range 3).map fun b =>
        entryAt k a b *
          img.data (refl101 img.rows (i + (a : ℤ) - 1))
                   (refl101 img.cols (j + (b : ℤ) - 1))).sum)).sum⟩

/-- Gradient template `Hx` (horizontal) from `improved_canny_gradient`. -/
def Hx : List (List ℝ) := [[-1, 0, 1], [-2, 0, 2], [-1, 0, 1]]

/-- Gradient template `Hy` (vertical) from `improved_canny_gradient`. -/
def Hy : List (List ℝ) := [[-1, -2, -1], [0, 0, 0], [1, 2, 1]]

/-- Gradient template `H45` from `improved_canny_gradient`. -/
def H45 : List (List ℝ) := [[0, 1, 2], [-1, 0, 1], [-2, -1, 0]]

/-- Gradient template `H135` from `improved_canny_gradient`. -/
def H135 : List (List ℝ) := [[-2, -1, 0], [-1, 0, 1], [0, 1, 2]]

/-- `improved_canny_gradient`: four directional responses combined into
`fx = Px + (P45 + P135)/2`, `fy = Py + (P45 - P135)/2`;
returns `(magnitude, direction)` with `magnitude = sqrt (fx² + fy²)` and
`direction = arctan2 (fy, fx)`. -/
def improved_canny_gradient (img : Raster) : Raster × Raster :=
  let Px := filter2D Hx img
  let Py := filter2D Hy img
  let P45 := filter2D H45 img
  let P135 := filter2D H135 img
  let fx : ℤ → ℤ → ℝ := fun i j => Px.data i j + (P45.data i j + P135.data i j) / 2
  let fy : ℤ → ℤ → ℝ := fun i j => Py.data i j + (P45.data i j - P135.data i j) / 2
  (⟨img.rows, img.cols, fun i j => Real.sqrt ((fx i j) ^ 2 + (fy i j) ^ 2)⟩,
   ⟨img.rows, img.cols, fun i j => Complex.arg ⟨fx i j, fy i j⟩⟩)

/-- `non_maximum_suppression`: interior pixels keep `int(min(mag, 255))` when
their magnitude dominates the two neighbors selected by the quantized angle
bucket; everything else (including the outer one-pixel ring) is 0.
The source shifts negative angles by 180° before bucketing. -/
def non_maximum_suppression (magnitude direction : Raster) : NatRaster :=
  ⟨magnitude.rows, magnitude.cols, fun i j =>
    if 1 ≤ i ∧ i < (magnitude.rows : ℤ) - 1 ∧ 1 ≤ j ∧ j < (magnitude.cols : ℤ) - 1 then
      let angle0 := direction.data i j * 180 / Real.pi
      let angle := if angle0 < 0 then angle0 + 180 else angle0
      let q : ℝ :=
        if (0 ≤ angle ∧ angle < 22.5) ∨ (157.5 ≤ angle ∧ angle ≤ 180) then
          magnitude.data i (j + 1)
        else if 22.5 ≤ angle ∧ angle < 67.5 then magnitude.data (i + 1) (j - 1)
        else if 67.5 ≤ angle ∧ angle < 112.5 then magnitude.data (i + 1) j
        else if 112.5 ≤ angle ∧ angle < 157.5 then magnitude.data (i - 1) (j - 1)
        else 255
      let r : ℝ :=
        if (0 ≤ angle ∧ angle < 22.5) ∨ (157.5 ≤ angle ∧ angle ≤ 180) then
          magnitude.data i (j - 1)
        else if 22.5 ≤ angle ∧ angle < 67.5 then magnitude.data (i - 1) (j + 1)
        else if 67.5 ≤ angle ∧ angle < 112.5 then magnitude.data (i - 1) j
        else if 112.5 ≤ angle ∧ angle < 157.5 then magnitude.data (i + 1) (j + 1)
        else 255
      if q ≤ magnitude.data i j ∧ r ≤ magnitude.data i j then
        (⌊min (magnitude.data i j) 255⌋).toNat
      else 0
    else 0⟩

/-- Models `img.max()` on a `uint8` grid (row-major fold; `numpy` raises on an
empty array, here the fold yields 0 — detect never reaches that case for the
inputs considered). -/
def gridMax (g : NatRaster) : ℕ :=
  ((List.range g.rows).flatMap fun i =>
    (List.range g.cols).map fun j => g.data (i : ℤ) (j : ℤ)).foldr max 0

/-- `double_threshold`: `high = max(img) * high_r`, `low = high * low_r`;
`strong` marks 255 where `v ≥ high`, `weak` marks 75 where
`low ≤ v ∧ v ≤ high` (the source condition is
`(img <= high_threshold) & (img >= low_threshold)` — a closed interval). -/
def double_threshold (img : NatRaster) (low_r high_r : ℝ) : NatRaster × NatRaster :=
  let high := (gridMax img : ℝ) * high_r
  let low := high * low_r
  (⟨img.rows, img.cols, fun i j =>
      if inBounds img.rows img.cols i j ∧ high ≤ (img.data i j : ℝ) then 255 else 0⟩,
   ⟨img.rows, img.cols, fun i j =>
      if inBounds img.rows img.cols i j ∧ (img.data i j : ℝ) ≤ high ∧ low ≤ (img.data i j : ℝ)
      then 75 else 0⟩)

/-- `hysteresis`: start from a copy of `strong`; every interior pixel whose
`weak` value is 75 and that has an 8-neighbor with `strong` value 255 is set
to 255.  The loop reads `strong` (not the partially updated copy). -/
def hysteresis (strong weak : NatRaster) : NatRaster :=
  ⟨strong.rows, strong.cols, fun i j =>
    if (1 ≤ i ∧ i < (strong.rows : ℤ) - 1 ∧ 1 ≤ j ∧ j < (strong.cols : ℤ) - 1) ∧
       weak.data i j = 75 ∧
       (strong.data (i + 1) (j - 1) = 255 ∨ strong.data (i + 1) j = 255 ∨
        strong.data (i + 1) (j + 1) = 255 ∨ strong.data i (j - 1) = 255 ∨
        strong.data i (j + 1) = 255 ∨ strong.data (i - 1) (j - 1) = 255 ∨
        strong.data (i - 1) j = 255 ∨ strong.data (i - 1) (j + 1) = 255)
    then 255 else strong.data i j⟩

/-- The 7×7 `Z00` Zernike mask from `_create_zernike_masks`. -/
def maskZ00 : List (List ℝ) := [
  [0, 0.0287, 0.0686, 0.0807, 0.0686, 0.0287, 0],
  [0.0287, 0.0815, 0.0816, 0.0816, 0.0816, 0.0815, 0.0287],
  [0.0686, 0.0816, 0.0816, 0.0816, 0.0816, 0.0816, 0.0686],
  [0.0807, 0.0816, 0.0816, 0.0816, 0.0816, 0.0816, 0.0807],
  [0.0686, 0.0816, 0.0816, 0.0816, 0.0816, 0.0816, 0.0686],
  [0.0287, 0.0815, 0.0816, 0.0816, 0.0816, 0.0815, 0.0287],
  [0, 0.0287, 0.0686, 0.0807, 0.0686, 0.0287, 0]]

/-- The 7×7 `Z11R` (real part) Zernike mask. -/
def maskZ11R : List (List ℝ) := [
  [0, -0.015, -0.019, 0, 0.019, 0.015, 0],
  [-0.0224, -0.0466, -0.0233, 0, 0.0233, 0.0466, 0.0224],
  [-0.0573, -0.0466, -0.0233, 0, 0.0233, 0.0466, 0.0573],
  [-0.069, -0.0466, -0.0233, 0, 0.0233, 0.0466, 0.069],
  [-0.0573, -0.0466, -0.0233, 0, 0.0233, 0.0466, 0.0573],
  [-0.0224, -0.0466, -0.0233, 0, 0.0233, 0.0466, 0.0224],
  [0, -0.015, -0.019, 0, 0.019, 0.015, 0]]

/-- The 7×7 `Z11I` (imaginary part) Zernike mask. -/
def maskZ11I : List (List ℝ) := [
  [0, -0.0224, -0.0573, -0.069, -0.0573, -0.0224, 0],
  [-0.015, -0.0466, -0.0466, -0.0466, -0.0466, -0.0466, -0.015],
  [-0.019, -0.0233, -0.0233, -0.0233, -0.0233, -0.0233, -0.019],
  [0, 0, 0, 0, 0, 0, 0],
  [0.019, 0.0233, 0.0233, 0.0233, 0.0233, 0.0233, 0.019],
  [0.015, 0.0466, 0.0466, 0.0466, 0.0466, 0.0466, 0.015],
  [0, 0.0224, 0.0573, 0.069, 0.0573, 0.0224, 0]]

/-- The 7×7 `Z20` Zernike mask. -/
def maskZ20 : List (List ℝ) := [
  [0, 0.0225, 0.0394, 0.0396, 0.0394, 0.0225, 0],
  [0.0225, 0.0271, -0.0128, -0.0261, -0.0128, 0.0271, 0.0225],
  [0.0394, -0.0128, -0.0528, -0.0661, -0.0528, -0.0128, 0.0394],
  [0.0396, -0.0261, -0.0661, -0.0794, -0.0661, -0.0261, 0.0396],
  [0.0394, -0.0128, -0.0528, -0.0661, -0.0528, -0.0128, 0.0394],
  [0.0225, 0.0271, -0.0128, -0.0261, -0.0128, 0.0271, 0.0225],
  [0, 0.0225, 0.0394, 0.0396, 0.0394, 0.0225, 0]]

/-- Models `np.sum(patch * mask)` for co-shaped 7×7 lists. -/
def dotMask (patch mask : List (List ℝ)) : ℝ :=
  (patch.zipWith (fun prow mrow => ((prow.zipWith (fun a b => a * b) mrow).sum)) mask).sum

/-- The three Zernike moment projections of a local patch (`Z11` is complex:
`complex(Z11R, Z11I)` in the source). -/
structure Moments where
  Z00 : ℝ
  Z11 : ℂ
  Z20 : ℝ

/-- `calculate_zernike_moments` of a 7×7 patch. -/
def calculate_zernike_moments (patch : List (List ℝ)) : Moments :=
  ⟨dotMask patch maskZ00,
   ⟨dotMask patch maskZ11R, dotMask patch maskZ11I⟩,
   dotMask patch maskZ20⟩

/-- `np.clip(l, -0.99, 0.99)` — first the lower bound, then the upper. -/
def clipL (x : ℝ) : ℝ := min (max x (-0.99)) 0.99

/-- `subpixel_edge_parameters`: edge angle `phi = arctan2(Im Z11, Re Z11)`,
normalized distance `l = Re (Z20 / (Z11 e^{-iφ}))` clipped to `[-0.99, 0.99]`,
step height `k`, background level `h`.  When the complex denominator is zero
the source raises no exception: the numpy division yields `nan` (with a
`RuntimeWarning`) and `nan` then flows through every later formula; since
real numbers have no `nan`, the result on that path is `none` — meaning
"the computed parameters are not real numbers", not a recovered failure. -/
def subpixel_edge_parameters (m : Moments) : Option (ℝ × ℝ × ℝ × ℝ) :=
  let phi := m.Z11.arg
  let denom := m.Z11 * Complex.exp (-Complex.I * (phi : ℂ))
  if denom = 0 then none
  else
    let l := clipL ((m.Z20 : ℂ) / denom).re
    let k := ((3 * (Complex.abs m.Z11) * Complex.exp (Complex.I * (phi : ℂ))) /
              ((2 * (1 - l ^ 2) ^ ((3 : ℝ) / 2) : ℝ) : ℂ)).re
    let h := m.Z00 -
      (k * Real.pi / 2 + k * Real.arctan l + k * l * Real.sqrt (1 - l ^ 2)) / Real.pi
    some (phi, h, k, l)

/-- The 7×7 patch `img[y-3 : y+4, x-3 : x+4]` (astype float) extracted by
`subpixel_refinement` (with `half_n = 7 // 2 = 3`). -/
def patchAt (img : Raster) (y x : ℕ) : List (List ℝ) :=
  (List.range 7).map fun a => (List.range 7).map fun b =>
    img.data ((y : ℤ) - 3 + (a : ℤ)) ((x : ℤ) - 3 + (b : ℤ))

/-- Body of the `subpixel_refinement` loop for one edge point `(y, x)`:
border fallback (`(float(x), float(y))`), moment computation, parameter
derivation, and the subpixel offset `(n/2) * (l/2) * (cos φ, sin φ)` with
`n = 7`.  On the zero-denominator path the source appends `(nan, nan)` —
nan propagates through the offset formulas and no exception fires, so the
`except` fallback is dead code there; the emitted pair is not a pair of
real numbers and is modelled as `none`. -/
def refine_point (img : Raster) (p : ℕ × ℕ) : Option (ℝ × ℝ) :=
  let y := p.1
  let x := p.2
  if (y : ℤ) - 3 < 0 ∨ (img.rows : ℤ) < (y : ℤ) + 3 + 1 ∨
     (x : ℤ) - 3 < 0 ∨ (img.cols : ℤ) < (x : ℤ) + 3 + 1 then
    some ((x : ℝ), (y : ℝ))
  else
    match subpixel_edge_parameters (calculate_zernike_moments (patchAt img y x)) with
    | none => none
    | some (phi, _, _, l) =>
        some ((x : ℝ) + (7 / 2) * (l / 2) * Real.cos phi,
              (y : ℝ) + (7 / 2) * (l / 2) * Real.sin phi)

/-- `np.argwhere(pixel_edges > 0)` in row-major scan order, as `(y, x)`
pairs. -/
def edgePoints (pe : NatRaster) : List (ℕ × ℕ) :=
  (List.range pe.rows).flatMap fun i =>
    (List.range pe.cols).filterMap fun j =>
      if 0 < pe.data ((i : ℕ) : ℤ) ((j : ℕ) : ℤ) then some ((i, j) : ℕ × ℕ) else none

/-- `subpixel_refinement(pixel_edges, img)`: one output entry per marked
pixel, in scan order (the source's append loop is a map); an entry is
`some (xs, ys)` for a real emitted pair and `none` for the `(nan, nan)`
pair emitted on the zero-denominator path. -/
def subpixel_refinement (pe : NatRaster) (img : Raster) : List (Option (ℝ × ℝ)) :=
  (edgePoints pe).map (refine_point img)

/-- `detect`: the full pipeline.  `bilateralFilter` and `gaussianBlur` are
the external OpenCV denoisers (opaque to this module); the input raster is
already single-channel, matching the 2-D branch of the source's grayscale
conversion (`gray = img.copy()`).  Thresholds greater than 1 are interpreted
as 0–255 values and divided by 255, as in the source. -/
def detect (bilateralFilter gaussianBlur : Raster → Raster) (use_bilateral : Bool)
    (low_threshold high_threshold : ℝ) (apply_subpixel : Bool) (img : Raster) :
    NatRaster × Option (List (Option (ℝ × ℝ))) :=
  let gray := img
  let filtered := if use_bilateral then bilateralFilter gray else gaussianBlur gray
  let md := improved_canny_gradient filtered
  let suppressed := non_maximum_suppression md.1 md.2
  let ratios : ℝ × ℝ :=
    if 1 < high_threshold then (low_threshold / 255, high_threshold / 255)
    else (low_threshold, high_threshold)
  let sw := double_threshold suppressed ratios.1 ratios.2
  let pixel_edges := hysteresis sw.1 sw.2
  (pixel_edges,
   if apply_subpixel then some (subpixel_refinement pixel_edges gray) else none)

/-- Modelled from the spec: a variant of `detect` that follows the spec's
words in §4.5 — the subpixel refiner consumes "the *original* smoothed
grayscale image", i.e. the denoised `filtered` buffer rather than the
pre-filter `gray`.  Used only to compare against the source's `detect`. -/
def detect_specC2 (bilateralFilter gaussianBlur : Raster → Raster) (use_bilateral : Bool)
    (low_threshold high_threshold : ℝ) (apply_subpixel : Bool) (img : Raster) :
    NatRaster × Option (List (Option (ℝ × ℝ))) :=
  let gray := img
  let filtered := if use_bilateral then bilateralFilter gray else gaussianBlur gray
  let md := improved_canny_gradient filtered
  let suppressed := non_maximum_suppression md.1 md.2
  let ratios : ℝ × ℝ :=
    if 1 < high_threshold then (low_threshold / 255, high_threshold / 255)
    else (low_threshold, high_threshold)
  let sw := double_threshold suppressed ratios.1 ratios.2
  let pixel_edges := hysteresis sw.1 sw.2
  (pixel_edges,
   if apply_subpixel then some (subpixel_refinement pixel_edges filtered) else none)

/-- The all-zero image raster. -/
def zeroR (r c : ℕ) : Raster := ⟨r, c, fun _ _ => 0⟩

/-- The all-zero `uint8` raster. -/
def natZeroR (r c : ℕ) : NatRaster := ⟨r, c, fun _ _ => 0⟩

/-- The raster whose every in-bounds pixel is 255. -/
def fullR (r c : ℕ) : NatRaster := ⟨r, c, fun i j => if inBounds r c i j then 255 else 0⟩

/-- A 7×7 vertical-step grayscale image: columns 0–3 have intensity 0,
columns 4–6 have intensity 100. -/
def stepImg : Raster := ⟨7, 7, fun _ j => if 4 ≤ j then 100 else 0⟩

/-- Number of pixels classified `strong` by `double_threshold`. -/
def strongCount (g : NatRaster) (low_r high_r : ℝ) : ℕ :=
  ((Finset.range g.rows ×ˢ Finset.range g.cols).filter fun p =>
    (double_threshold g low_r high_r).1.data (p.1 : ℤ) (p.2 : ℤ) = 255).card

/-- Number of pixels marked in the final post-hysteresis edge map obtained
from the thinned grid `g` and the two threshold ratios. -/
def edgeCount (g : NatRaster) (low_r high_r : ℝ) : ℕ :=
  ((Finset.range g.rows ×ˢ Finset.range g.cols).filter fun p =>
    (hysteresis (double_threshold g low_r high_r).1
      (double_threshold g low_r high_r).2).data (p.1 : ℤ) (p.2 : ℤ) = 255).card

/-- The thinned grid obtained from the all-zero image. -/
def zeroSuppressed (r c : ℕ) : NatRaster :=
  non_maximum_suppression (improved_canny_gradient (zeroR r c)).1
    (improved_canny_gradient (zeroR r c)).2

/-- A 1×1 edge map with its single pixel marked (a border pixel). -/
def borderPe : NatRaster := ⟨1, 1, fun _ _ => 255⟩

/-- A 7×7 edge map whose only marked pixel is the center `(3, 3)` (the one
pixel of a 7×7 image whose 7×7 neighborhood is fully in bounds). -/
def centerPe : NatRaster := ⟨7, 7, fun i j => if i = 3 ∧ j = 3 then 255 else 0⟩

/-- A 1×2 thinned grid with values `[10, 5]`, used to exercise the threshold
classification at a pixel whose value equals the high threshold exactly. -/
def dtGrid : NatRaster := ⟨1, 2, fun _ j => if j = 1 then 5 else 10⟩

/-! Helper lemmas about the pipeline on degenerate inputs. -/

/-- A fold of `max` over a list of zeros is zero. -/
lemma foldr_max_zero (l : List ℕ) (h : ∀ x ∈ l, x = 0) : l.foldr max 0 = 0 := by
  induction l with
  | nil => rfl
  | cons a t ih =>
      have ha : a = 0 := h a (List.mem_cons_self a t)
      have ht : ∀ x ∈ t, x = 0 := fun x hx => h x (List.mem_cons_of_mem a hx)
      simp [ha, ih ht]

/-- Convolving the all-zero image gives zero everywhere. -/
lemma filter2D_zero_data (k : List (List ℝ)) (r c : ℕ) (i j : ℤ) :
    (filter2D k (zeroR r c)).data i j = 0 := by
  simp [filter2D, zeroR]

/-- Gradient magnitude of the all-zero image is zero. -/
lemma grad_zero_mag (r c : ℕ) (i j : ℤ) :
    (improved_canny_gradient (zeroR r c)).1.data i j = 0 := by
  simp [improved_canny_gradient, filter2D_zero_data, Real.sqrt_zero]

/-- Gradient direction of the all-zero image is zero (`arctan2 0 0 = 0`). -/
lemma grad_zero_dir (r c : ℕ) (i j : ℤ) :
    (improved_canny_gradient (zeroR r c)).2.data i j = 0 := by
  have hz : (⟨(0 : ℝ), (0 : ℝ)⟩ : ℂ) = 0 := by
    apply Complex.ext <;> simp
  simp [improved_canny_gradient, filter2D_zero_data]
  rw [hz, Complex.arg_zero]

/-- Non-maximum suppression of the all-zero gradient field is all zero. -/
lemma nms_zero_data (r c : ℕ) (i j : ℤ) :
    (non_maximum_suppression (improved_canny_gradient (zeroR r c)).1
      (improved_canny_gradient (zeroR r c)).2).data i j = 0 := by
  simp only [non_maximum_suppression]
  split
  · simp [grad_zero_mag, grad_zero_dir]
  · rfl

/-- The maximum of an everywhere-zero `uint8` grid is 0. -/
lemma gridMax_eq_zero (g : NatRaster) (h : ∀ i j, g.data i j = 0) : gridMax g = 0 := by
  apply foldr_max_zero
  intro x hx
  simp only [List.mem_flatMap, List.mem_map, List.mem_range] at hx
  obtain ⟨i, _, j, _, rfl⟩ := hx
  exact h _ _

/-- On a grid whose maximum is 0, both thresholds are 0 and every in-bounds
pixel is classified `strong` (every `uint8` value satisfies `v ≥ 0`). -/
lemma dt_max0_strong (g : NatRaster) (h : gridMax g = 0) (lr hr : ℝ) (i j : ℤ) :
    (double_threshold g lr hr).1.data i j =
      if inBounds g.rows g.cols i j then 255 else 0 := by
  simp [double_threshold, h]

/-- The pixel-level edge map computed from the all-zero image marks every
in-bounds pixel: with `max = 0` both thresholds are 0, all pixels become
`strong`, and hysteresis keeps all of them. -/
lemma pipeline_zero (r c : ℕ) (lr hr : ℝ) :
    hysteresis (double_threshold (zeroSuppressed r c) lr hr).1
      (double_threshold (zeroSuppressed r c) lr hr).2 = fullR r c := by
  have hz : ∀ i j, (zeroSuppressed r c).data i j = 0 := fun i j => nms_zero_data r c i j
  have hm : gridMax (zeroSuppressed r c) = 0 := gridMax_eq_zero _ hz
  have hrows : (zeroSuppressed r c).rows = r := rfl
  have hcols : (zeroSuppressed r c).cols = c := rfl
  ext i j
  · rfl
  · rfl
  · show (hysteresis _ _).data i j = (fullR r c).data i j
    simp only [hysteresis, fullR]
    split
    · rename_i hcond
      have hin : inBounds r c i j := by
        rcases hcond with ⟨⟨h1, h2, h3, h4⟩, -⟩
        have er : ((double_threshold (zeroSuppressed r c) lr hr).1.rows : ℤ) = (r : ℤ) := rfl
        have ec : ((double_threshold (zeroSuppressed r c) lr hr).1.cols : ℤ) = (c : ℤ) := rfl
        rw [er] at h2
        rw [ec] at h4
        refine ⟨by omega, by omega, by omega, by omega⟩
      simp [hin]
    · rw [dt_max0_strong _ hm]
      rfl

/-- Restatement of `pipeline_zero` with the suppressed grid spelled out, so
it can rewrite inside the unfolded `detect`. -/
lemma pipeline_zero2 (r c : ℕ) (lr hr : ℝ) :
    hysteresis
      (double_threshold (non_maximum_suppression (improved_canny_gradient (zeroR r c)).1
        (improved_canny_gradient (zeroR r c)).2) lr hr).1
      (double_threshold (non_maximum_suppression (improved_canny_gradient (zeroR r c)).1
        (improved_canny_gradient (zeroR r c)).2) lr hr).2 = fullR r c :=
  pipeline_zero r c lr hr

/-- `detect` on the all-zero image (identity denoiser) returns the full edge
map and refines every one of its pixels. -/
lemma detect_zero_eval (r c : ℕ) (lt ht : ℝ) :
    detect id id true lt ht true (zeroR r c) =
      (fullR r c, some (subpixel_refinement (fullR r c) (zeroR r c))) := by
  simp only [detect, id_eq, ite_self]
  rw [pipeline_zero2]
  simp

lemma range7 : List.range 7 = [0, 1, 2, 3, 4, 5, 6] := by decide

/-- The 7×7 patch of the vertical-step image at its center pixel. -/
lemma patch_step : patchAt stepImg 3 3 =
    [[0,0,0,0,100,100,100],[0,0,0,0,100,100,100],[0,0,0,0,100,100,100],
     [0,0,0,0,100,100,100],[0,0,0,0,100,100,100],[0,0,0,0,100,100,100],
     [0,0,0,0,100,100,100]] := by
  norm_num [patchAt, stepImg, range7]

/-- Zernike moments of the step patch: `Z00 = 128.57`, `Z11 = 64.59` (purely
real by antisymmetry of the imaginary mask), `Z20 = 9.24`. -/
lemma moments_step : calculate_zernike_moments (patchAt stepImg 3 3) =
    ⟨128.57, ((64.59 : ℝ) : ℂ), 9.24⟩ := by
  rw [patch_step]
  simp [calculate_zernike_moments, dotMask, maskZ00, maskZ11R, maskZ11I, maskZ20,
    Moments.mk.injEq, Complex.ext_iff]
  norm_num

/-- Refining the center pixel of the step image moves it by
`(7/2)·(l/2)` with `l = 9.24/64.59 = 308/2153` along the x-axis. -/
lemma refine_step : refine_point stepImg (3, 3) = some ((3 : ℝ) + 7 / 4 * (308 / 2153), 3) := by
  have harg : Complex.arg ((64.59 : ℝ) : ℂ) = 0 := Complex.arg_ofReal_of_nonneg (by norm_num)
  have hb : ¬((((3 : ℕ)) : ℤ) - 3 < 0 ∨ (stepImg.rows : ℤ) < (((3 : ℕ)) : ℤ) + 3 + 1 ∨
      (((3 : ℕ)) : ℤ) - 3 < 0 ∨ (stepImg.cols : ℤ) < (((3 : ℕ)) : ℤ) + 3 + 1) := by decide
  have hne : ((64.59 : ℝ) : ℂ) ≠ 0 := Complex.ofReal_ne_zero.mpr (by norm_num)
  have hclip : clipL (308 / 2153) = 308 / 2153 := by
    rw [clipL, max_eq_left (by norm_num), min_eq_left (by norm_num)]
  simp only [refine_point, moments_step, subpixel_edge_parameters, harg]
  rw [if_neg hb]
  norm_num [Complex.exp_zero, hne, ← Complex.ofReal_div, hclip, Real.cos_zero, Real.sin_zero]

lemma patch_zero77 : patchAt (zeroR 7 7) 3 3 =
    [[0,0,0,0,0,0,0],[0,0,0,0,0,0,0],[0,0,0,0,0,0,0],[0,0,0,0,0,0,0],
     [0,0,0,0,0,0,0],[0,0,0,0,0,0,0],[0,0,0,0,0,0,0]] := by
  norm_num [patchAt, zeroR, range7]

lemma moments_zero : calculate_zernike_moments (patchAt (zeroR 7 7) 3 3) = ⟨0, 0, 0⟩ := by
  rw [patch_zero77]
  simp [calculate_zernike_moments, dotMask, maskZ00, maskZ11R, maskZ11I, maskZ20,
    Moments.mk.injEq, Complex.ext_iff]

/-- Zero moments make the moment denominator vanish: the parameter derivation
fails (the modelled numeric error). -/
lemma params_zero : subpixel_edge_parameters ⟨0, 0, 0⟩ = none := by
  simp [subpixel_edge_parameters]

/-- Refining the center pixel over the all-zero 7×7 image: the zero patch
gives `Z11 = 0`, the division hits the zero denominator, and the emitted
pair is the `(nan, nan)` marker `none`. -/
lemma refine_zero77 : refine_point (zeroR 7 7) (3, 3) = none := by
  have hb : ¬((((3 : ℕ)) : ℤ) - 3 < 0 ∨ ((zeroR 7 7).rows : ℤ) < (((3 : ℕ)) : ℤ) + 3 + 1 ∨
      (((3 : ℕ)) : ℤ) - 3 < 0 ∨ ((zeroR 7 7).cols : ℤ) < (((3 : ℕ)) : ℤ) + 3 + 1) := by decide
  simp only [refine_point, moments_zero, params_zero]
  rw [if_neg hb]

/-- `detect` with the constant-zero denoiser on the step image: the pipeline
sees a zero image, so the edge map is full; refinement reads `gray`
(the step image). -/
lemma detect_step_eval : detect (fun _ => zeroR 7 7) id true 50 150 true stepImg =
    (fullR 7 7, some (subpixel_refinement (fullR 7 7) stepImg)) := by
  simp only [detect, id_eq, if_true]
  rw [pipeline_zero2]

/-- The spec-mandated variant on the same input: refinement reads `filtered`
(the zero image). -/
lemma detect_specC2_step_eval : detect_specC2 (fun _ => zeroR 7 7) id true 50 150 true stepImg =
    (fullR 7 7, some (subpixel_refinement (fullR 7 7) (zeroR 7 7))) := by
  simp only [detect_specC2, id_eq, if_true]
  rw [pipeline_zero2]

lemma ep77 : (edgePoints (fullR 7 7))[24]? = some (3, 3) := by decide

lemma edgePoints_full22 : edgePoints (fullR 2 2) = [(0, 0), (0, 1), (1, 0), (1, 1)] := by decide

lemma edgePoints_full33 : edgePoints (fullR 3 3) =
    [(0,0),(0,1),(0,2),(1,0),(1,1),(1,2),(2,0),(2,1),(2,2)] := by decide

lemma ite_eq_255 (c : Prop) [Decidable c] : (if c then (255 : ℕ) else 0) = 255 ↔ c := by
  by_cases h : c <;> simp [h]

lemma ite_eq_75 (c : Prop) [Decidable c] : (if c then (75 : ℕ) else 0) = 75 ↔ c := by
  by_cases h : c <;> simp [h]

/-- The clip operation really does land in `[-0.99, 0.99]`. -/
lemma clipL_bounds (v : ℝ) : -0.99 ≤ clipL v ∧ clipL v ≤ 0.99 := by
  constructor
  · exact le_min (le_max_right v (-0.99)) (by norm_num)
  · exact min_le_right _ _

/-- Whenever the parameter derivation succeeds, the returned `l` is the
clipped distance and hence lies in `[-0.99, 0.99]`. -/
lemma params_l_bound (m : Moments) (p h k l : ℝ)
    (hp : subpixel_edge_parameters m = some (p, h, k, l)) : -0.99 ≤ l ∧ l ≤ 0.99 := by
  simp only [subpixel_edge_parameters] at hp
  split at hp
  · exact absurd hp (by simp)
  · simp only [Option.some.injEq, Prod.mk.injEq] at hp
    obtain ⟨-, -, -, hl⟩ := hp
    rw [← hl]
    exact clipL_bounds _

/-- Concrete successful run of the parameter derivation: unit `Z11`, zero
`Z00` and `Z20` give `φ = 0`, `h = -3/4`, `k = 3/2`, `l = 0`. -/
lemma params_one : subpixel_edge_parameters ⟨0, 1, 0⟩ = some (0, -(3 / 4), 3 / 2, 0) := by
  have harg : Complex.arg 1 = 0 := Complex.arg_one
  have hmax : ((0 : ℝ) ⊔ (-99 / 100)) = 0 := max_eq_left (by norm_num)
  have hmin : ((0 : ℝ) ⊓ (99 / 100)) = 0 := min_eq_left (by norm_num)
  simp only [subpixel_edge_parameters, harg]
  rw [if_neg (by simp [Complex.exp_zero])]
  simp [clipL, Complex.exp_zero, Real.arctan_zero, hmax, hmin]
  norm_num [Real.one_rpow]
  field_simp
  ring

/-- A `strong` map only holds 0 or 255. -/
lemma dt_strong_binary (g : NatRaster) (lr hr : ℝ) (i j : ℤ) :
    (double_threshold g lr hr).1.data i j = 0 ∨ (double_threshold g lr hr).1.data i j = 255 := by
  simp only [double_threshold]
  split
  · right; rfl
  · left; rfl

/-- Hysteresis over a binary strong map yields a binary edge map. -/
lemma hysteresis_binary (s w : NatRaster) (hs : ∀ i j, s.data i j = 0 ∨ s.data i j = 255)
    (i j : ℤ) : (hysteresis s w).data i j = 0 ∨ (hysteresis s w).data i j = 255 := by
  simp only [hysteresis]
  split
  · right; rfl
  · exact hs i j

/-- Raising the high ratio only shrinks the `strong` set. -/
lemma dt_strong_mono (g : NatRaster) (lr hr1 hr2 : ℝ) (h12 : hr1 ≤ hr2) (i j : ℤ)
    (h : (double_threshold g lr hr2).1.data i j = 255) :
    (double_threshold g lr hr1).1.data i j = 255 := by
  simp only [double_threshold, ite_eq_255] at h ⊢
  exact ⟨h.1, le_trans (mul_le_mul_of_nonneg_left h12 (Nat.cast_nonneg _)) h.2⟩

/-- Pointwise monotonicity of the final post-hysteresis edge map in the high
threshold ratio: every pixel marked with ratio `hr2 ≥ hr1` is also marked
with `hr1`. -/
lemma final_mono (g : NatRaster) (lr hr1 hr2 : ℝ) (hlr : 0 ≤ lr) (h12 : hr1 ≤ hr2) (i j : ℤ)
    (h : (hysteresis (double_threshold g lr hr2).1 (double_threshold g lr hr2).2).data i j = 255) :
    (hysteresis (double_threshold g lr hr1).1 (double_threshold g lr hr1).2).data i j = 255 := by
  have hhigh : (gridMax g : ℝ) * hr1 ≤ (gridMax g : ℝ) * hr2 :=
    mul_le_mul_of_nonneg_left h12 (Nat.cast_nonneg _)
  have hlow : (gridMax g : ℝ) * hr1 * lr ≤ (gridMax g : ℝ) * hr2 * lr :=
    mul_le_mul_of_nonneg_right hhigh hlr
  simp only [hysteresis] at h ⊢
  split at h
  · rename_i hcond
    obtain ⟨hint, hweak, hnbr⟩ := hcond
    have hweak2 : inBounds g.rows g.cols i j ∧
        (g.data i j : ℝ) ≤ (gridMax g : ℝ) * hr2 ∧
        (gridMax g : ℝ) * hr2 * lr ≤ (g.data i j : ℝ) := by
      simpa only [double_threshold, ite_eq_75] using hweak
    by_cases hs1 : (gridMax g : ℝ) * hr1 ≤ (g.data i j : ℝ)
    · have hstrong1 : (double_threshold g lr hr1).1.data i j = 255 := by
        simp only [double_threshold, ite_eq_255]
        exact ⟨hweak2.1, hs1⟩
      split
      · rfl
      · exact hstrong1
    · have hweak1 : (double_threshold g lr hr1).2.data i j = 75 := by
        simp only [double_threshold, ite_eq_75]
        exact ⟨hweak2.1, le_of_not_le hs1, le_trans hlow hweak2.2.2⟩
      have hnbr1 : (double_threshold g lr hr1).1.data (i + 1) (j - 1) = 255 ∨
          (double_threshold g lr hr1).1.data (i + 1) j = 255 ∨
          (double_threshold g lr hr1).1.data (i + 1) (j + 1) = 255 ∨
          (double_threshold g lr hr1).1.data i (j - 1) = 255 ∨
          (double_threshold g lr hr1).1.data i (j + 1) = 255 ∨
          (double_threshold g lr hr1).1.data (i - 1) (j - 1) = 255 ∨
          (double_threshold g lr hr1).1.data (i - 1) j = 255 ∨
          (double_threshold g lr hr1).1.data (i - 1) (j + 1) = 255 := by
        rcases hnbr with hh | hh | hh | hh | hh | hh | hh | hh
        · exact Or.inl (dt_strong_mono g lr hr1 hr2 h12 _ _ hh)
        · exact Or.inr (Or.inl (dt_strong_mono g lr hr1 hr2 h12 _ _ hh))
        · exact Or.inr (Or.inr (Or.inl (dt_strong_mono g lr hr1 hr2 h12 _ _ hh)))
        · exact Or.inr (Or.inr (Or.inr (Or.inl (dt_strong_mono g lr hr1 hr2 h12 _ _ hh))))
        · exact Or.inr (Or.inr (Or.inr (Or.inr (Or.inl
            (dt_strong_mono g lr hr1 hr2 h12 _ _ hh)))))
        · exact Or.inr (Or.inr (Or.inr (Or.inr (Or.inr (Or.inl
            (dt_strong_mono g lr hr1 hr2 h12 _ _ hh))))))
        · exact Or.inr (Or.inr (Or.inr (Or.inr (Or.inr (Or.inr (Or.inl
            (dt_strong_mono g lr hr1 hr2 h12 _ _ hh)))))))
        · exact Or.inr (Or.inr (Or.inr (Or.inr (Or.inr (Or.inr (Or.inr
            (dt_strong_mono g lr hr1 hr2 h12 _ _ hh)))))))
      rw [if_pos ⟨hint, hweak1, hnbr1⟩]
  · have h1 := dt_strong_mono g lr hr1 hr2 h12 i j h
    split
    · rfl
    · exact h1

/-! The claim theorems. -/

/-- C1.  The claim states that an all-zero input image yields an empty edge
map and an empty subpixel sequence.  The code does the opposite: on the
all-zero 2×2 image (with the identity denoiser and the default 50/150
thresholds) the suppressed grid is all zero, both thresholds are 0, every
`uint8` value satisfies `v ≥ 0`, so every pixel is classified `strong`;
the returned edge map marks all four pixels and the subpixel sequence has
one (fallback) point per pixel instead of being empty.  No error is raised,
as the claim says, but the output is full, not empty. -/
theorem c1_zero_image_marks_all_pixels :
    (detect id id true 50 150 true (zeroR 2 2)).1 = fullR 2 2 ∧
    (detect id id true 50 150 true (zeroR 2 2)).2 =
      some [some ((0 : ℝ), (0 : ℝ)), some ((1 : ℝ), (0 : ℝ)),
            some ((0 : ℝ), (1 : ℝ)), some ((1 : ℝ), (1 : ℝ))] := by
  rw [detect_zero_eval]
  constructor
  · rfl
  · simp [subpixel_refinement, edgePoints_full22, refine_point, zeroR]

/-- C2 (counterexample).  The claim states that `detect` passes the filtered
(denoised) image into `subpixel_refinement`.  It does not: it passes the
pre-filter grayscale `gray`.  With a denoiser that maps everything to the
all-zero 7×7 image and the 7×7 vertical-step image as input, the source
`detect` refines step-image patches (moving the center point by
`+7/4·(308/2153)` in x) while the spec-faithful variant `detect_specC2`
refines zero patches (falling back to the integer coordinate), so the two
subpixel outputs differ. -/
theorem c2_counterexample :
    (detect (fun _ => zeroR 7 7) id true 50 150 true stepImg).2 ≠
    (detect_specC2 (fun _ => zeroR 7 7) id true 50 150 true stepImg).2 := by
  rw [detect_step_eval, detect_specC2_step_eval]
  intro h
  dsimp only at h
  injection h with h2
  have h3 := congrArg (fun l => l[24]?) h2
  dsimp only at h3
  rw [subpixel_refinement, subpixel_refinement, List.getElem?_map, List.getElem?_map, ep77] at h3
  simp only [Option.map_some'] at h3
  rw [refine_step, refine_zero77] at h3
  simp at h3

/-- C2 (amended).  The subpixel refinement stage extracts its 7×7 patches
from the pre-filter grayscale image: `detect` passes `gray` (the unfiltered
input), not the denoised `filtered` buffer, into `subpixel_refinement`. -/
theorem c2_amended_refines_prefilter_gray (filt gauss : Raster → Raster) (ub : Bool)
    (lt ht : ℝ) (img : Raster) :
    (detect filt gauss ub lt ht true img).2 =
      some (subpixel_refinement (detect filt gauss ub lt ht true img).1 img) := rfl

/-- C3.  The claim (and the source's own handler comment "If calculation
fails, use pixel-level coordinates") says a numeric error in the per-point
parameter derivation makes `subpixel_refinement` emit the unrefined integer
coordinate.  The code does not do this: at the center pixel of the all-zero
7×7 image the patch moments are all zero, the moment ratio divides by the
zero complex denominator, and numpy raises nothing there — the division
yields `nan` with a `RuntimeWarning`, the broad `except` never fires, and
`nan` propagates to the appended point, which is `(nan, nan)` (modelled
`none`) instead of the claimed `(3, 3)`.  One entry per marked pixel is
still emitted and no exception reaches the caller, but the emitted value
refutes the claimed fallback. -/
theorem c3_zero_denominator_emits_nan :
    calculate_zernike_moments (patchAt (zeroR 7 7) 3 3) = ⟨0, 0, 0⟩ ∧
    subpixel_edge_parameters ⟨0, 0, 0⟩ = none ∧
    subpixel_refinement centerPe (zeroR 7 7) = [none] ∧
    (subpixel_refinement centerPe (zeroR 7 7)).length = (edgePoints centerPe).length := by
  refine ⟨moments_zero, params_zero, ?_, List.length_map _ _⟩
  have he : edgePoints centerPe = [(3, 3)] := by decide
  rw [subpixel_refinement, he]
  simp [refine_zero77]

/-- C4 (counterexample).  The claim states that a pixel is `weak` exactly when
its value lies in the half-open interval `[low, high)` and that no pixel is
both `strong` and `weak`.  The source classifies with the closed condition
`(img <= high) & (img >= low)`: on the 1×2 grid `[10, 5]` with ratios
`low_r = 1/5`, `high_r = 1/2` (so `high = 5`, `low = 1`), the pixel of value
5 is marked `strong` (255) and `weak` (75) simultaneously. -/
theorem c4_counterexample :
    (double_threshold dtGrid (1 / 5) (1 / 2)).1.data 0 1 = 255 ∧
    (double_threshold dtGrid (1 / 5) (1 / 2)).2.data 0 1 = 75 := by
  have hm : gridMax dtGrid = 10 := by decide
  have hv : dtGrid.data 0 1 = 5 := by decide
  have hin : inBounds dtGrid.rows dtGrid.cols 0 1 := by decide
  constructor
  · simp only [double_threshold]
    rw [if_pos]
    exact ⟨hin, by rw [hm, hv]; norm_num⟩
  · simp only [double_threshold]
    rw [if_pos]
    exact ⟨hin, by rw [hm, hv]; norm_num, by rw [hm, hv]; norm_num⟩

/-- C4 (amended).  With `high = max(grid) * high_r` and `low = high * low_r`,
a pixel is `strong` exactly when `v ≥ high` (as claimed) and `weak` exactly
when `low ≤ v ≤ high` — a closed interval, so a pixel whose value equals
`high` is classified both `strong` and `weak`. -/
theorem c4_amended_threshold_classification (g : NatRaster) (lr hr : ℝ) (i j : ℤ)
    (hin : inBounds g.rows g.cols i j) :
    ((double_threshold g lr hr).1.data i j = 255 ↔ (gridMax g : ℝ) * hr ≤ (g.data i j : ℝ)) ∧
    ((double_threshold g lr hr).2.data i j = 75 ↔
      (g.data i j : ℝ) ≤ (gridMax g : ℝ) * hr ∧
        (gridMax g : ℝ) * hr * lr ≤ (g.data i j : ℝ)) := by
  constructor
  · simp only [double_threshold, ite_eq_255, hin, true_and]
  · simp only [double_threshold, ite_eq_75, hin, true_and]

/-- C4 (witness).  The amended classification evaluated at pixel `(0, 1)` of
the concrete 1×2 grid. -/
theorem c4_amended_threshold_classification_witness :
    inBounds dtGrid.rows dtGrid.cols 0 1 ∧
    (((double_threshold dtGrid (1 / 5) (1 / 2)).1.data 0 1 = 255 ↔
       (gridMax dtGrid : ℝ) * (1 / 2) ≤ (dtGrid.data 0 1 : ℝ)) ∧
     ((double_threshold dtGrid (1 / 5) (1 / 2)).2.data 0 1 = 75 ↔
       (dtGrid.data 0 1 : ℝ) ≤ (gridMax dtGrid : ℝ) * (1 / 2) ∧
         (gridMax dtGrid : ℝ) * (1 / 2) * (1 / 5) ≤ (dtGrid.data 0 1 : ℝ))) :=
  ⟨by decide, c4_amended_threshold_classification dtGrid (1 / 5) (1 / 2) 0 1 (by decide)⟩

/-- C5 (counterexample).  The claim states that `detect` raises
`InvalidInputError` when the threshold ratios violate the ordering
constraint, surfacing the error immediately with no result.  The source
performs no validation at all (no such error type exists in the repository):
with ratios `low = 9/10 > high = 2/10` on a 3×3 all-zero image, `detect`
returns a complete result — the full edge map and nine fallback subpixel
points — instead of raising. -/
theorem c5_counterexample :
    detect id id true (9 / 10) (2 / 10) true (zeroR 3 3) =
      (fullR 3 3, some [some ((0 : ℝ), (0 : ℝ)), some (1, 0), some (2, 0), some (0, 1),
        some (1, 1), some (2, 1), some (0, 2), some (1, 2), some (2, 2)]) := by
  rw [detect_zero_eval]
  simp [subpixel_refinement, edgePoints_full33, refine_point, zeroR]

/-- C5 (amended).  `detect` performs no input validation and has no error
path: for every input — including threshold ratios violating the spec's
ordering/range constraints — it returns a complete well-formed result, a
binary (0/255) edge map together with exactly one subpixel point per marked
pixel. -/
theorem c5_amended_total_no_error (filt gauss : Raster → Raster) (ub : Bool)
    (lt ht : ℝ) (img : Raster) :
    (∀ i j : ℤ, (detect filt gauss ub lt ht true img).1.data i j = 0 ∨
       (detect filt gauss ub lt ht true img).1.data i j = 255) ∧
    ∃ pts, (detect filt gauss ub lt ht true img).2 = some pts ∧
      pts.length = (edgePoints (detect filt gauss ub lt ht true img).1).length := by
  constructor
  · intro i j
    exact hysteresis_binary _ _ (fun a b => dt_strong_binary _ _ _ a b) i j
  · exact ⟨_, rfl, List.length_map _ _⟩

/-- C6.  For a fixed thinned grid and fixed (nonnegative) low ratio, raising
the high threshold ratio never increases the number of `strong` pixels, and
the number of pixels marked in the final post-hysteresis edge map is
monotonically non-increasing in the high ratio. -/
theorem c6_threshold_monotonicity (g : NatRaster) (lr hr1 hr2 : ℝ)
    (hlr : 0 ≤ lr) (h12 : hr1 ≤ hr2) :
    strongCount g lr hr2 ≤ strongCount g lr hr1 ∧
    edgeCount g lr hr2 ≤ edgeCount g lr hr1 := by
  constructor
  · apply Finset.card_le_card
    intro p hp
    simp only [Finset.mem_filter] at hp ⊢
    exact ⟨hp.1, dt_strong_mono g lr hr1 hr2 h12 _ _ hp.2⟩
  · apply Finset.card_le_card
    intro p hp
    simp only [Finset.mem_filter] at hp ⊢
    exact ⟨hp.1, final_mono g lr hr1 hr2 hlr h12 _ _ hp.2⟩

/-- C6 (witness).  Monotonicity instantiated on the concrete 1×2 grid with
ratios `1/4 ≤ 1/2`. -/
theorem c6_threshold_monotonicity_witness :
    (0 : ℝ) ≤ 1 / 4 ∧ (1 / 4 : ℝ) ≤ 1 / 2 ∧
    (strongCount dtGrid (1 / 4) (1 / 2) ≤ strongCount dtGrid (1 / 4) (1 / 4) ∧
     edgeCount dtGrid (1 / 4) (1 / 2) ≤ edgeCount dtGrid (1 / 4) (1 / 4)) :=
  ⟨by norm_num, by norm_num,
   c6_threshold_monotonicity dtGrid (1 / 4) (1 / 4) (1 / 2) (by norm_num) (by norm_num)⟩

/-- C7.  Every pixel marked in the edge map whose 7×7 neighborhood would
extend outside the image bounds (fewer than 3 rows/columns from an image
edge) appears in the subpixel output, at its own scan position, as exactly
the unrefined integer pair `(x, y)` — no refinement is attempted. -/
theorem c7_border_fallback (pe : NatRaster) (img : Raster) (i y x : ℕ)
    (hget : (edgePoints pe)[i]? = some (y, x))
    (hb : (y : ℤ) - 3 < 0 ∨ (img.rows : ℤ) < (y : ℤ) + 3 + 1 ∨
          (x : ℤ) - 3 < 0 ∨ (img.cols : ℤ) < (x : ℤ) + 3 + 1) :
    (subpixel_refinement pe img)[i]? = some (some ((x : ℝ), (y : ℝ))) := by
  rw [subpixel_refinement, List.getElem?_map, hget, Option.map_some']
  have hr : refine_point img (y, x) = some ((x : ℝ), (y : ℝ)) := by
    simp only [refine_point]
    rw [if_pos hb]
  rw [hr]

/-- C7 (witness).  A 1×1 image: its single marked pixel is a border pixel and
is emitted unchanged. -/
theorem c7_border_fallback_witness :
    (edgePoints borderPe)[0]? = some (0, 0) ∧
    ((((0 : ℕ)) : ℤ) - 3 < 0 ∨ ((zeroR 1 1).rows : ℤ) < (((0 : ℕ)) : ℤ) + 3 + 1 ∨
      (((0 : ℕ)) : ℤ) - 3 < 0 ∨ ((zeroR 1 1).cols : ℤ) < (((0 : ℕ)) : ℤ) + 3 + 1) ∧
    (subpixel_refinement borderPe (zeroR 1 1))[0]? = some (some ((0 : ℝ), (0 : ℝ))) :=
  ⟨by decide, by decide,
   by simpa using c7_border_fallback borderPe (zeroR 1 1) 0 0 0 (by decide) (by decide)⟩

/-- C9.  Whenever the parameter derivation succeeds, the clipped normalized
distance `l` lies in `[-0.99, 0.99]`, hence `1 - l² ≥ 0.0199 ≥ 0`, the
step-height denominator `2·(1 - l²)^{3/2}` is strictly positive (so nonzero),
and the square root in the background-level formula receives a non-negative
argument: after clipping, the `k` and `h` formulas cannot divide by zero or
hit an invalid domain. -/
theorem c9_clip_safety (m : Moments) (p h k l : ℝ)
    (hp : subpixel_edge_parameters m = some (p, h, k, l)) :
    -0.99 ≤ l ∧ l ≤ 0.99 ∧ 0.0199 ≤ 1 - l ^ 2 ∧ 0 ≤ 1 - l ^ 2 ∧
    0 < (1 - l ^ 2) ^ ((3 : ℝ) / 2) ∧ 2 * (1 - l ^ 2) ^ ((3 : ℝ) / 2) ≠ 0 := by
  have hl := params_l_bound m p h k l hp
  have h2 : (0 : ℝ) < 1 - l ^ 2 := by nlinarith [hl.1, hl.2]
  have h3 : 0 < (1 - l ^ 2) ^ ((3 : ℝ) / 2) := Real.rpow_pos_of_pos h2 _
  exact ⟨hl.1, hl.2, by nlinarith [hl.1, hl.2], by nlinarith [hl.1, hl.2], h3,
    ne_of_gt (mul_pos two_pos h3)⟩

/-- C9 (witness).  The derivation succeeds on the moments
`(Z00, Z11, Z20) = (0, 1, 0)` with `l = 0`, and all the safety bounds hold
there. -/
theorem c9_clip_safety_witness :
    subpixel_edge_parameters ⟨0, 1, 0⟩ = some (0, -(3 / 4), 3 / 2, 0) ∧
    (-0.99 ≤ (0 : ℝ) ∧ (0 : ℝ) ≤ 0.99 ∧ 0.0199 ≤ 1 - (0 : ℝ) ^ 2 ∧ 0 ≤ 1 - (0 : ℝ) ^ 2 ∧
      0 < (1 - (0 : ℝ) ^ 2) ^ ((3 : ℝ) / 2) ∧ 2 * (1 - (0 : ℝ) ^ 2) ^ ((3 : ℝ) / 2) ≠ 0) :=
  ⟨params_one, c9_clip_safety ⟨0, 1, 0⟩ 0 (-(3 / 4)) (3 / 2) 0 params_one⟩

/-- C10.  Every real point the subpixel refiner actually emits — a
successful refinement or a border fallback — differs from its originating
integer pixel by at most `(7/2)·(0.99/2) = 1.7325` in each axis (since
`|l| ≤ 0.99` after clipping and `|cos φ|, |sin φ| ≤ 1`), hence lies strictly
inside the pixel's 7×7 patch; border-fallback points differ by exactly 0.
Nothing is asserted about the zero-denominator entries, where the program
emits `(nan, nan)` — the `none` marker, see C3. -/
theorem c10_offset_bound (pe : NatRaster) (img : Raster) (i y x : ℕ) (q : Option (ℝ × ℝ))
    (hget : (edgePoints pe)[i]? = some (y, x))
    (hres : (subpixel_refinement pe img)[i]? = some q) :
    (∀ p : ℝ × ℝ, q = some p → |p.1 - (x : ℝ)| ≤ 1.7325 ∧ |p.2 - (y : ℝ)| ≤ 1.7325) ∧
    (((y : ℤ) - 3 < 0 ∨ (img.rows : ℤ) < (y : ℤ) + 3 + 1 ∨
      (x : ℤ) - 3 < 0 ∨ (img.cols : ℤ) < (x : ℤ) + 3 + 1) →
      q = some ((x : ℝ), (y : ℝ))) := by
  have hq : q = refine_point img (y, x) := by
    rw [subpixel_refinement, List.getElem?_map, hget, Option.map_some'] at hres
    exact (Option.some.inj hres).symm
  subst hq
  simp only [refine_point]
  by_cases hb : (y : ℤ) - 3 < 0 ∨ (img.rows : ℤ) < (y : ℤ) + 3 + 1 ∨
      (x : ℤ) - 3 < 0 ∨ (img.cols : ℤ) < (x : ℤ) + 3 + 1
  · rw [if_pos hb]
    refine ⟨?_, fun _ => rfl⟩
    intro p hp
    obtain rfl : ((x : ℝ), (y : ℝ)) = p := Option.some.inj hp
    constructor <;> norm_num
  · rw [if_neg hb]
    rcases hparams : subpixel_edge_parameters (calculate_zernike_moments (patchAt img y x)) with
      _ | ⟨phi, h, k, l⟩
    · exact ⟨fun p hp => absurd hp (by simp), fun hb2 => absurd hb2 hb⟩
    · refine ⟨?_, fun hb2 => absurd hb2 hb⟩
      intro p hp
      obtain rfl : ((x : ℝ) + 7 / 2 * (l / 2) * Real.cos phi,
          (y : ℝ) + 7 / 2 * (l / 2) * Real.sin phi) = p := Option.some.inj hp
      have hl : -0.99 ≤ l ∧ l ≤ 0.99 := params_l_bound _ _ _ _ _ hparams
      have habs : |l| ≤ 0.99 := abs_le.mpr hl
      have hcos : |Real.cos phi| ≤ 1 := Real.abs_cos_le_one phi
      have hsin : |Real.sin phi| ≤ 1 := Real.abs_sin_le_one phi
      have hbx : |(7 : ℝ) / 2 * (l / 2) * Real.cos phi| ≤ 1.7325 := by
        have e : (7 : ℝ) / 2 * (l / 2) * Real.cos phi = 7 / 4 * (l * Real.cos phi) := by ring
        rw [e, abs_mul, abs_mul]
        have h1 : |l| * |Real.cos phi| ≤ 0.99 * 1 :=
          mul_le_mul habs hcos (abs_nonneg _) (by norm_num)
        have h2 : |(7 : ℝ) / 4| = 7 / 4 := by norm_num
        rw [h2]
        nlinarith [abs_nonneg l, abs_nonneg (Real.cos phi)]
      have hby : |(7 : ℝ) / 2 * (l / 2) * Real.sin phi| ≤ 1.7325 := by
        have e : (7 : ℝ) / 2 * (l / 2) * Real.sin phi = 7 / 4 * (l * Real.sin phi) := by ring
        rw [e, abs_mul, abs_mul]
        have h1 : |l| * |Real.sin phi| ≤ 0.99 * 1 :=
          mul_le_mul habs hsin (abs_nonneg _) (by norm_num)
        have h2 : |(7 : ℝ) / 4| = 7 / 4 := by norm_num
        rw [h2]
        nlinarith [abs_nonneg l, abs_nonneg (Real.sin phi)]
      exact ⟨by simpa using hbx, by simpa using hby⟩

/-- C10 (witness).  The bound and the exact border fallback instantiated at
the single marked pixel of a 1×1 edge map — a branch the program genuinely
executes. -/
theorem c10_offset_bound_witness :
    (edgePoints borderPe)[0]? = some (0, 0) ∧
    (subpixel_refinement borderPe (zeroR 1 1))[0]? =
      some (some (((0 : ℕ) : ℝ), ((0 : ℕ) : ℝ))) ∧
    (∀ p : ℝ × ℝ, (some (((0 : ℕ) : ℝ), ((0 : ℕ) : ℝ)) : Option (ℝ × ℝ)) = some p →
      |p.1 - ((0 : ℕ) : ℝ)| ≤ 1.7325 ∧ |p.2 - ((0 : ℕ) : ℝ)| ≤ 1.7325) := by
  have h1 : (edgePoints borderPe)[0]? = some (0, 0) := by decide
  have h2 : (subpixel_refinement borderPe (zeroR 1 1))[0]? =
      some (some (((0 : ℕ) : ℝ), ((0 : ℕ) : ℝ))) := by
    rw [subpixel_refinement, List.getElem?_map, h1, Option.map_some']
    have hr : refine_point (zeroR 1 1) (0, 0) = some (((0 : ℕ) : ℝ), ((0 : ℕ) : ℝ)) := by
      simp only [refine_point]
      rw [if_pos (by decide)]
    rw [hr]
  exact ⟨h1, h2, (c10_offset_bound borderPe (zeroR 1 1) 0 0 0 _ h1 h2).1⟩

end
